import Mathlib

/-!
Verification of the streaming-protocol client and attachment-staging pipeline
of the Multimodal-RAG frontend (src/api/chat.ts, src/App.tsx,
src/components/MessageBubble.tsx, src/components/NavigationBar.tsx).

Text is modelled as `List Char`; JavaScript string operations (split,
startsWith, slice, trim) are translated to list operations.  `JSON.parse`
is a platform builtin, so it is modelled as an abstract parameter
`parse : Str → Option StreamingResponse` (returning `none` when parsing
throws); every theorem quantifies over it or instantiates it concretely.
-/

/-- JavaScript strings, modelled as lists of characters. -/
abbrev Str := List Char

/-- Coerce a Lean string literal to the `List Char` model. -/
def str (s : String) : Str := s.data

/-- Model of `s.split('\n')` from JavaScript: the segments of `s` between
newline characters.  Always returns a non-empty list; the final element is
the text after the last newline (possibly empty). -/
def splitLines : Str → List Str
  | [] => [[]]
  | c :: cs =>
    let r := splitLines cs
    if c = '\n' then [] :: r
    else (c :: r.headI) :: r.tail

theorem splitLines_ne_nil (s : Str) : splitLines s ≠ [] := by
  cases s with
  | nil => simp [splitLines]
  | cons c cs =>
    simp only [splitLines]
    split <;> simp

/-- The complete lines of a buffer: everything before the final segment.
Models `lines` after `buffer = lines.pop()` in the source. -/
def completeLines (s : Str) : List Str := (splitLines s).dropLast

/-- The residual of a buffer: the final (possibly incomplete) segment.
Models the value `lines.pop()` stored back into `buffer`. -/
def residualOf (s : Str) : Str := (splitLines s).getLastD []

theorem splitLines_no_newline {s : Str} (h : '\n' ∉ s) : splitLines s = [s] := by
  induction s with
  | nil => rfl
  | cons c cs ih =>
    simp only [List.mem_cons, not_or] at h
    simp only [splitLines]
    rw [if_neg (fun hc => h.1 hc.symm), ih h.2]
    rfl

theorem splitLines_mem_no_newline {s : Str} : ∀ l ∈ splitLines s, '\n' ∉ l := by
  induction s with
  | nil =>
    intro l hl
    simp [splitLines] at hl
    simp [hl]
  | cons c cs ih =>
    intro l hl
    simp only [splitLines] at hl
    by_cases hc : c = '\n'
    · rw [if_pos hc] at hl
      rcases List.mem_cons.mp hl with h | h
      · simp [h]
      · exact ih l h
    · rw [if_neg hc] at hl
      rcases List.mem_cons.mp hl with h | h
      · subst h
        simp only [List.mem_cons, not_or]
        refine ⟨fun h => hc h.symm, ?_⟩
        cases hr : splitLines cs with
        | nil => exact absurd hr (splitLines_ne_nil cs)
        | cons a r => exact ih _ (by rw [hr]; exact List.mem_cons_self a r)
      · exact ih l (List.mem_of_mem_tail h)

theorem residualOf_mem (s : Str) : residualOf s ∈ splitLines s := by
  unfold residualOf
  cases hr : splitLines s with
  | nil => exact absurd hr (splitLines_ne_nil s)
  | cons a r =>
    have h : (a :: r) ≠ [] := List.cons_ne_nil a r
    rw [List.getLastD_eq_getLast?, List.getLast?_eq_getLast _ h, Option.getD_some]
    exact List.getLast_mem h

theorem residualOf_no_newline (s : Str) : '\n' ∉ residualOf s :=
  splitLines_mem_no_newline _ (residualOf_mem s)

theorem modifyHead_nil_append : ∀ l : List Str, l.modifyHead (fun h => [] ++ h) = l
  | [] => rfl
  | _ :: _ => rfl

theorem modifyHead_fun_id : ∀ l : List Str, l.modifyHead (fun h => h) = l
  | [] => rfl
  | _ :: _ => rfl

/-- Splitting a concatenation: the first factor contributes its complete
lines, and its residual is glued onto the first line of the second factor. -/
theorem splitLines_append (s t : Str) :
    splitLines (s ++ t) =
      (splitLines s).dropLast ++
        ((splitLines t).modifyHead fun h => (splitLines s).getLastD [] ++ h) := by
  induction s with
  | nil =>
    simp [splitLines, modifyHead_nil_append, modifyHead_fun_id]
  | cons c s' ih =>
    by_cases hc : c = '\n'
    · show splitLines (c :: (s' ++ t)) = _
      simp only [splitLines, if_pos hc, ih]
      cases hr : splitLines s' with
      | nil => exact absurd hr (splitLines_ne_nil s')
      | cons a l =>
        simp [List.getLastD_cons]
    · show splitLines (c :: (s' ++ t)) = _
      simp only [splitLines, if_neg hc, ih]
      cases hr : splitLines s' with
      | nil => exact absurd hr (splitLines_ne_nil s')
      | cons a l =>
        cases hl : l with
        | nil =>
          cases ht : splitLines t with
          | nil => exact absurd ht (splitLines_ne_nil t)
          | cons h tl => simp [List.getLastD_cons]
        | cons b l2 =>
          simp [List.getLastD_cons]

theorem completeLines_append (s t : Str) :
    completeLines (s ++ t) = completeLines s ++ completeLines (residualOf s ++ t) := by
  have h1 := splitLines_append s t
  have h2 := splitLines_append (residualOf s) t
  rw [splitLines_no_newline (residualOf_no_newline s)] at h2
  simp only [completeLines, residualOf] at *
  rw [h1, h2]
  cases ht : splitLines t with
  | nil => exact absurd ht (splitLines_ne_nil t)
  | cons h tl =>
    simp only [List.modifyHead, List.dropLast_append_of_ne_nil, List.dropLast,
      List.getLastD_cons, List.dropLast_nil, List.nil_append]
    simp [List.getLastD]

theorem residualOf_append (s t : Str) :
    residualOf (s ++ t) = residualOf (residualOf s ++ t) := by
  have h1 := splitLines_append s t
  have h2 := splitLines_append (residualOf s) t
  rw [splitLines_no_newline (residualOf_no_newline s)] at h2
  simp only [residualOf] at *
  rw [h1, h2]
  cases ht : splitLines t with
  | nil => exact absurd ht (splitLines_ne_nil t)
  | cons h tl =>
    simp only [List.modifyHead, List.dropLast, List.getLastD_cons, List.nil_append]
    rcases tl.eq_nil_or_concat with rfl | ⟨tl', x, rfl⟩
    · simp [List.getLastD_cons]
    · simp only [List.getLastD_eq_getLast?]
      rw [← List.concat_cons, List.append_concat]
      simp only [List.concat_eq_append, List.getLast?_concat]
      simp

/-! ## Frames of the chat stream (src/api/chat.ts, `StreamingResponse`) -/

/-- Reference record attached to answers (src/components/MessageBubble.tsx). -/
structure Reference where
  id : Nat
  text : Str
  source : Str
  page : Nat
  chunk_id : Nat
  source_info : Str
  deriving DecidableEq, Repr

/-- The discriminant tag of a decoded frame.  `other` covers any JSON value
whose `type` field is absent or unknown; such frames are still yielded. -/
inductive FrameType where
  | content_delta
  | message_complete
  | error
  | other (tag : Str)
  deriving DecidableEq, Repr

/-- A decoded SSE frame (interface `StreamingResponse` in src/api/chat.ts). -/
structure StreamingResponse where
  type : FrameType
  content : Option Str := none
  full_content : Option Str := none
  error : Option Str := none
  timestamp : Str := []
  references : List Reference := []
  deriving DecidableEq, Repr

/-- `data.type === 'message_complete' || data.type === 'error'`: after such a
frame the generator returns. -/
def isTerminal (f : StreamingResponse) : Bool :=
  match f.type with
  | .message_complete => true
  | .error => true
  | _ => false

/-- One line of the chat loop: lines starting with `data: ` have their
payload (`line.slice(6)`) passed to `JSON.parse`; `none` models a parse
exception (the line is dropped with a warning) or a line without the
marker prefix (skipped). -/
def decodeLine (parse : Str → Option StreamingResponse) (line : Str) :
    Option StreamingResponse :=
  if (str "data: ").isPrefixOf line then parse (line.drop 6) else none

/-- The inner `for (const line of lines)` loop of `streamChat`: yields each
decoded frame in order and reports whether a terminal frame caused the
generator to return. -/
def processLines (parse : Str → Option StreamingResponse) :
    List Str → List StreamingResponse × Bool
  | [] => ([], false)
  | l :: ls =>
    match decodeLine parse l with
    | none => processLines parse ls
    | some f =>
      if isTerminal f then ([f], true)
      else
        let r := processLines parse ls
        (f :: r.1, r.2)

/-- What `reader.read()` can deliver: a data chunk, or a rejection that is
thrown into the generator body. -/
inductive ReadEvent where
  | chunk (data : Str)
  | fail (msg : Str)
  deriving DecidableEq, Repr

/-- The `while (true)` read loop of `streamChat`: maintains the residual
buffer, splits on line boundaries, processes the complete lines, keeps the
last segment as the new buffer, and returns on a terminal frame.  The end
of the event list models `done`; the residual buffer is then discarded.
Returns the frames yielded inside the `try` body together with the message
of the exception that escaped it, if any. -/
def chatReadLoop (parse : Str → Option StreamingResponse) (buf : Str) :
    List ReadEvent → List StreamingResponse × Option Str
  | [] => ([], none)
  | .fail m :: _ => ([], some m)
  | .chunk c :: rest =>
    let whole := buf ++ c
    let r := processLines parse (completeLines whole)
    if r.2 then (r.1, none)
    else
      let rec' := chatReadLoop parse (residualOf whole) rest
      (r.1 ++ rec'.1, rec'.2)

/-- The frames `streamChat` yields for a stream of data chunks that ends
normally (reader reports done), starting from the empty residual buffer. -/
def streamChatFrames (parse : Str → Option StreamingResponse)
    (chunks : List Str) : List StreamingResponse :=
  (chatReadLoop parse [] (chunks.map ReadEvent.chunk)).1

theorem processLines_append (parse : Str → Option StreamingResponse) :
    ∀ xs ys : List Str,
      processLines parse (xs ++ ys) =
        (let r := processLines parse xs
         if r.2 then r else (r.1 ++ (processLines parse ys).1, (processLines parse ys).2))
  | [], ys => by simp [processLines]
  | l :: ls, ys => by
    simp only [List.cons_append, processLines, List.append_eq]
    cases hd : decodeLine parse l with
    | none => exact processLines_append parse ls ys
    | some f =>
      by_cases ht : isTerminal f
      · simp [ht]
      · simp only [ht, if_false, Bool.false_eq_true]
        have := processLines_append parse ls ys
        rw [this]
        by_cases hs : (processLines parse ls).2
        · simp [hs]
        · simp [hs]

theorem chatReadLoop_chunks (parse : Str → Option StreamingResponse) :
    ∀ (chunks : List Str) (buf : Str), '\n' ∉ buf →
      chatReadLoop parse buf (chunks.map ReadEvent.chunk) =
        ((processLines parse (completeLines (buf ++ chunks.flatten))).1, none)
  | [], buf, hb => by
    simp only [List.map_nil, chatReadLoop, List.flatten_nil, List.append_nil]
    rw [completeLines, splitLines_no_newline hb]
    simp [processLines]
  | c :: rest, buf, hb => by
    simp only [List.map_cons, chatReadLoop, List.flatten_cons]
    rw [← List.append_assoc, completeLines_append (buf ++ c) rest.flatten,
      processLines_append]
    have ih := chatReadLoop_chunks parse rest (residualOf (buf ++ c))
      (residualOf_no_newline _)
    rw [ih]
    by_cases hs : (processLines parse (completeLines (buf ++ c))).2
    · simp [hs]
    · simp [hs]

/-- C1: chunking invariance of the frame decoder.  For every fixed byte
stream and every way of splitting it into chunks (`chunks`, whose
concatenation is the stream), the decoding loop of `streamChat` yields the
same ordered frame sequence as when the whole stream arrives as one chunk. -/
theorem streamChat_chunking_invariance (parse : Str → Option StreamingResponse)
    (chunks : List Str) :
    streamChatFrames parse chunks = streamChatFrames parse [chunks.flatten] := by
  unfold streamChatFrames
  rw [chatReadLoop_chunks parse chunks [] (by simp),
    chatReadLoop_chunks parse [chunks.flatten] [] (by simp)]
  simp

/-- A content-delta frame used to instantiate theorems on concrete inputs. -/
def demoDelta (s : String) : StreamingResponse :=
  { type := .content_delta, content := some (str s), timestamp := str "T" }

/-- A concrete stand-in for `JSON.parse`: recognises payload `A` and `B` as
content-delta frames, payload `C` as a terminal completion frame, and fails
on (throws for) everything else. -/
def parseDemo : Str → Option StreamingResponse := fun payload =>
  if payload = str "A" then some (demoDelta "hello")
  else if payload = str "B" then some (demoDelta "world")
  else if payload = str "C" then
    some { type := .message_complete, timestamp := str "T" }
  else none

theorem processLines_insert_skipped (parse : Str → Option StreamingResponse)
    (m : Str) (hm : decodeLine parse m = none) (pre suf : List Str) :
    processLines parse (pre ++ m :: suf) = processLines parse (pre ++ suf) := by
  rw [processLines_append, processLines_append]
  have hms : processLines parse (m :: suf) = processLines parse suf := by
    simp [processLines, hm]
  rw [hms]

theorem processLines_two_frames (parse : Str → Option StreamingResponse)
    (m : Str) (hm : decodeLine parse m = none)
    (l1 l2 : Str) (f1 f2 : StreamingResponse)
    (h1 : decodeLine parse l1 = some f1) (ht1 : isTerminal f1 = false)
    (h2 : decodeLine parse l2 = some f2) :
    (processLines parse [l1, m, l2]).1 = [f1, f2] := by
  have he : ([l1] : List Str) ++ m :: [l2] = [l1, m, l2] := rfl
  rw [← he, processLines_insert_skipped parse m hm]
  simp only [List.singleton_append, processLines, h1, ht1, h2]
  by_cases ht2 : isTerminal f2 <;> simp [ht2]

/-! ## The full `streamChat` generator including its try/catch (C10) -/

/-- The frame yielded by the outer catch of `streamChat`: type error, the
exception message, and a fresh timestamp (`new Date().toISOString()`,
passed in as `now`). -/
def errorFrame (now msg : Str) : StreamingResponse :=
  { type := .error, error := some msg, timestamp := now }

/-- The message of the error thrown for a non-success HTTP status. -/
def httpErrorMsg (status : Nat) (body : Str) : Str :=
  str "HTTP error! status: " ++ (toString status).data ++ str ", body: " ++ body

/-- Everything the transport can do to `streamChat`: the fetch promise
rejects, or a response arrives with a status flag, an error body, a flag
for whether a readable body stream exists, and the sequence of read
events. -/
inductive FetchOutcome where
  | fetchError (msg : Str)
  | response (ok : Bool) (status : Nat) (errBody : Str) (hasBody : Bool)
      (events : List ReadEvent)

/-- The `streamChat` generator as a whole: the `try` body runs the fetch,
the status check, the reader acquisition and the read loop; any exception
is converted by the catch into a single yielded error frame, after which
the generator terminates. -/
def streamChatGen (parse : Str → Option StreamingResponse) (now : Str) :
    FetchOutcome → List StreamingResponse
  | .fetchError m => [errorFrame now m]
  | .response ok status errBody hasBody events =>
    if ok = false then [errorFrame now (httpErrorMsg status errBody)]
    else if hasBody = false then [errorFrame now (str "Unable to read response stream")]
    else
      let r := chatReadLoop parse [] events
      match r.2 with
      | none => r.1
      | some m => r.1 ++ [errorFrame now m]

theorem chatReadLoop_fail (parse : Str → Option StreamingResponse) :
    ∀ (chunks : List Str) (buf : Str), '\n' ∉ buf →
      ∀ (m : Str) (rest : List ReadEvent),
        (processLines parse (completeLines (buf ++ chunks.flatten))).2 = false →
        chatReadLoop parse buf (chunks.map ReadEvent.chunk ++ .fail m :: rest) =
          ((processLines parse (completeLines (buf ++ chunks.flatten))).1, some m)
  | [], buf, hb, m, rest, hstop => by
    simp only [List.map_nil, List.nil_append, chatReadLoop, List.flatten_nil,
      List.append_nil]
    rw [completeLines, splitLines_no_newline hb]
    simp [processLines]
  | c :: cs, buf, hb, m, rest, hstop => by
    simp only [List.flatten_cons, ← List.append_assoc] at hstop ⊢
    rw [completeLines_append (buf ++ c) cs.flatten,
      processLines_append] at hstop ⊢
    by_cases hs : (processLines parse (completeLines (buf ++ c))).2
    · rw [if_pos hs] at hstop
      exact absurd hstop (by simp [hs])
    · rw [if_neg hs] at hstop ⊢
      simp only at hstop
      simp only [List.map_cons, List.cons_append, chatReadLoop]
      rw [if_neg hs]
      have ih := chatReadLoop_fail parse cs (residualOf (buf ++ c))
        (residualOf_no_newline _) m rest hstop
      simp only [List.append_eq]
      rw [ih]

/-- C10 (implicit): `streamChat` is total over its failure modes.  The
generator never propagates an exception to its consumer — its model is a
total function into a plain frame list — and each transport failure mode
(fetch rejection, non-2xx status, missing body stream, mid-stream read
error) produces exactly the frames yielded so far followed by one final
frame of type error carrying the failure message and a timestamp, after
which the generator terminates.  The hypothesis in the last conjunct says
the read failure is actually reached (no earlier terminal frame ended the
generator first). -/
theorem streamChat_transport_failures_yield_error_frame
    (parse : Str → Option StreamingResponse) (now : Str) :
    (∀ m, streamChatGen parse now (.fetchError m) = [errorFrame now m]) ∧
    (∀ status errBody hasBody events,
        streamChatGen parse now (.response false status errBody hasBody events) =
          [errorFrame now (httpErrorMsg status errBody)]) ∧
    (∀ status errBody events,
        streamChatGen parse now (.response true status errBody false events) =
          [errorFrame now (str "Unable to read response stream")]) ∧
    (∀ (chunks : List Str) (m : Str) (rest : List ReadEvent) (status : Nat)
        (errBody : Str),
        (processLines parse (completeLines chunks.flatten)).2 = false →
        streamChatGen parse now
            (.response true status errBody true
              (chunks.map ReadEvent.chunk ++ .fail m :: rest)) =
          (processLines parse (completeLines chunks.flatten)).1 ++
            [errorFrame now m]) := by
  refine ⟨fun m => rfl, fun _ _ _ _ => rfl, fun _ _ _ => rfl, ?_⟩
  intro chunks m rest status errBody hstop
  have h := chatReadLoop_fail parse chunks [] (by simp) m rest (by simpa using hstop)
  simp only [streamChatGen, if_neg, Bool.true_eq_false, not_false_eq_true,
    if_false]
  simp only [List.nil_append] at h
  simp [h]

/-- Closed witness for the transport-failure theorem: a read error after one
complete delta line yields the delta frame followed by one error frame. -/
theorem streamChat_transport_failures_witness :
    streamChatGen parseDemo (str "T")
        (.response true 200 [] true
          [.chunk (str "data: A\n"), .fail (str "network reset")]) =
      [demoDelta "hello", errorFrame (str "T") (str "network reset")] := by
  have h := (streamChat_transport_failures_yield_error_frame parseDemo
      (str "T")).2.2.2 [str "data: A\n"] (str "network reset") [] 200 []
      (by decide)
  simpa using h

/-! ## Document processing (src/App.tsx: `processPDF`, `handleUploadPDFNew`) -/

/-- Whitespace for the JavaScript `trim()` model. -/
def isJsSpace (c : Char) : Bool :=
  c = ' ' || c = '\t' || c = '\n' || c = '\r' || c = '\x0b' || c = '\x0c'

/-- Model of JavaScript `s.trim()`. -/
def jsTrim (s : Str) : Str :=
  ((s.dropWhile isJsSpace).reverse.dropWhile isJsSpace).reverse

/-- A document chunk produced by the processing endpoint
(`chunks` entries with id, content and metadata carrying a source name). -/
structure DocChunk where
  id : Str
  content : Str
  metadata : Str
  deriving DecidableEq, Repr

/-- A decoded document-processing event (`parsed.type` in `processPDF`). -/
inductive PdfEvent where
  | progress (progressVal : Nat) (step : Str) (msg : Str)
  | result (chunks : List DocChunk)
  | perror (msg : Str)
  deriving DecidableEq, Repr

/-- A staged document (element of the `pendingPDFs` collection). -/
structure PendingPDF where
  id : Nat
  filename : Str
  size : Nat
  processed : Bool
  chunks : List DocChunk
  deriving DecidableEq, Repr

/-- The shared `pdfProcessing` progress record. -/
structure PdfProgress where
  isProcessing : Bool
  progressVal : Nat
  step : Str
  message : Str
  deriving DecidableEq, Repr

/-- The cleared progress record (the `finally` block of `processPDF`). -/
def clearedProgress : PdfProgress :=
  { isProcessing := false, progressVal := 0, step := [], message := [] }

inductive ToastKind where
  | success
  | error
  | warning
  | info
  deriving DecidableEq, Repr

/-- A notification (`ToastMessage`); the model records every `showToast`
call in order. -/
structure ToastMsg where
  kind : ToastKind
  title : Str
  description : Str
  deriving DecidableEq, Repr

/-- The slice of App state touched by the document pipeline. -/
structure PdfAppState where
  pendingPDFs : List PendingPDF
  pdfProcessing : PdfProgress
  toasts : List ToastMsg
  isStreaming : Bool
  deriving DecidableEq, Repr

/-- Handling of one complete line inside the read loop of `processPDF`.
Returns the updated state and `some chunks` when the `result` branch
executes `return parsed.chunks`.  A line without the `data: ` marker, a
`[DONE]` sentinel, an empty payload, and a payload that fails to parse are
all skipped.  A `progress` event overwrites the shared progress record.
An `error` event throws, but the throw happens inside the same `try` whose
`catch` handles parse failures, so it is logged and the loop continues —
the state is unchanged and nothing is returned. -/
def pdfHandleLine (parseP : Str → Option PdfEvent) (pdfId : Nat)
    (st : PdfAppState) (line : Str) : PdfAppState × Option (List DocChunk) :=
  if (str "data: ").isPrefixOf line then
    let data := jsTrim (line.drop 6)
    if data = str "[DONE]" then (st, none)
    else if data = [] then (st, none)
    else
      match parseP data with
      | none => (st, none)
      | some (.progress p stepName msg) =>
        ({ st with
            pdfProcessing :=
              { isProcessing := true, progressVal := p, step := stepName,
                message := msg } }, none)
      | some (.result cs) =>
        ({ st with
            pendingPDFs := st.pendingPDFs.map fun pdf =>
              if pdf.id = pdfId then { pdf with processed := true, chunks := cs }
              else pdf }, some cs)
      | some (.perror _) => (st, none)
  else (st, none)

/-- The `for (const line of lines)` loop of `processPDF`. -/
def pdfProcessLines (parseP : Str → Option PdfEvent) (pdfId : Nat) :
    PdfAppState → List Str → PdfAppState × Option (List DocChunk)
  | st, [] => (st, none)
  | st, l :: ls =>
    let r := pdfHandleLine parseP pdfId st l
    match r.2 with
    | some cs => (r.1, some cs)
    | none => pdfProcessLines parseP pdfId r.1 ls

/-- How the read loop of `processPDF` can end. -/
inductive PdfLoopEnd where
  | finished (st : PdfAppState) (finalBuf : Str)
  | returned (st : PdfAppState) (chunks : List DocChunk)
  | threw (st : PdfAppState) (msg : Str)

/-- The `while (true)` read loop of `processPDF`: same buffering discipline
as the chat decoder; ends with the final residual buffer on `done`, with a
chunk list when the `result` branch returns, or with an exception message
when a read rejects. -/
def pdfReadLoop (parseP : Str → Option PdfEvent) (pdfId : Nat) :
    PdfAppState → Str → List ReadEvent → PdfLoopEnd
  | st, buf, [] => .finished st buf
  | st, _, .fail m :: _ => .threw st m
  | st, buf, .chunk c :: rest =>
    let whole := buf ++ c
    let r := pdfProcessLines parseP pdfId st (completeLines whole)
    match r.2 with
    | some cs => .returned r.1 cs
    | none => pdfReadLoop parseP pdfId r.1 (residualOf whole) rest

/-- The final-buffer handling of `processPDF` after the read loop has
drained: a non-empty residual with the `data: ` marker whose payload is
neither the sentinel nor empty is parsed, and a `result` event is applied
as a final frame; anything else is ignored. -/
def pdfFinalBuffer (parseP : Str → Option PdfEvent) (pdfId : Nat)
    (st : PdfAppState) (buf : Str) : PdfAppState × Option (List DocChunk) :=
  if jsTrim buf ≠ [] ∧ (str "data: ").isPrefixOf buf then
    let data := jsTrim (buf.drop 6)
    if data ≠ str "[DONE]" ∧ data ≠ [] then
      match parseP data with
      | some (.result cs) =>
        ({ st with
            pendingPDFs := st.pendingPDFs.map fun pdf =>
              if pdf.id = pdfId then { pdf with processed := true, chunks := cs }
              else pdf }, some cs)
      | _ => (st, none)
    else (st, none)
  else (st, none)

/-- What the processing request can produce: a rejection of the fetch (or
of the local file read), or a response with or without a body stream and
its read events. -/
inductive PdfFetch where
  | reject (msg : Str)
  | response (hasBody : Bool) (events : List ReadEvent)

/-- The error toast raised by the catch block of `processPDF`. -/
def pdfErrorToast (filename msg : Str) : ToastMsg :=
  { kind := .error, title := str "PDF Processing Failed",
    description := str "Error processing " ++ filename ++ str ": " ++ msg }

/-- The whole of `processPDF`: sets the progress record, runs the request
and the read loop, handles the final buffer, raises the error toast and
rethrows in its catch, and always clears the progress record in its
finally.  The `Except.error` result models the exception propagating to
the caller; `Except.ok` carries the returned chunk list (`none` when the
function falls off the end and returns undefined). -/
def processPDFRun (parseP : Str → Option PdfEvent) (pdfId : Nat)
    (filename : Str) (fo : PdfFetch) (st0 : PdfAppState) :
    PdfAppState × Except Str (Option (List DocChunk)) :=
  let st1 := { st0 with
    pdfProcessing :=
      { isProcessing := true, progressVal := 0, step := str "preparing",
        message := str "Preparing to process PDF..." } }
  let onCatch : PdfAppState → Str → PdfAppState × Except Str (Option (List DocChunk)) :=
    fun st m =>
      let stc := { st with
                   toasts := st.toasts ++ [pdfErrorToast filename m],
                   pdfProcessing := clearedProgress }
      (stc, Except.error m)
  match fo with
  | .reject m => onCatch st1 m
  | .response false _ => onCatch st1 (str "Response body is empty")
  | .response true events =>
    match pdfReadLoop parseP pdfId st1 [] events with
    | .returned st2 cs =>
      ({ st2 with pdfProcessing := clearedProgress }, .ok (some cs))
    | .threw st2 m => onCatch st2 m
    | .finished st2 buf =>
      let r := pdfFinalBuffer parseP pdfId st2 buf
      ({ r.1 with pdfProcessing := clearedProgress }, .ok r.2)

/-- The 50MB size limit of `handleUploadPDFNew`. -/
def maxPdfSize : Nat := 50 * 1024 * 1024

/-- `handleUploadPDFNew`: guards against a running stream or processing,
rejects oversize files before any network call, stages the document with a
client id taken from the clock (`Date.now()`, passed in as `t`), raises the
info toast, runs `processPDF`, and on success marks the document processed;
when `processPDF` returns no chunks or throws, the catch removes the staged
document from the collection. -/
def handleUploadPDFNewRun (parseP : Str → Option PdfEvent) (t : Nat)
    (filename : Str) (size : Nat) (fo : PdfFetch) (st : PdfAppState) :
    PdfAppState :=
  if st.isStreaming || st.pdfProcessing.isProcessing then st
  else if size > maxPdfSize then
    { st with toasts := st.toasts ++
        [{ kind := .error, title := str "PDF File Too Large",
           description := str "File size exceeds limit (50MB)" }] }
  else
    let st1 := { st with
      pendingPDFs := st.pendingPDFs ++
        [{ id := t, filename := filename, size := size, processed := false,
           chunks := [] }],
      toasts := st.toasts ++
        [{ kind := .info, title := str "PDF Processing",
           description := str "Parsing " ++ filename ++ str "..." }] }
    match processPDFRun parseP t filename fo st1 with
    | (st2, .ok (some cs)) =>
      if cs ≠ [] then
        { st2 with
          pendingPDFs := st2.pendingPDFs.map fun p =>
            if p.id = t then { p with processed := true, chunks := cs } else p,
          toasts := st2.toasts ++
            [{ kind := .success, title := str "PDF Processing Complete",
               description := filename }] }
      else { st2 with pendingPDFs := st2.pendingPDFs.filter fun p => p.id ≠ t }
    | (st2, .ok none) =>
      { st2 with pendingPDFs := st2.pendingPDFs.filter fun p => p.id ≠ t }
    | (st2, .error _) =>
      { st2 with pendingPDFs := st2.pendingPDFs.filter fun p => p.id ≠ t }

/-- A concrete document chunk for instantiating theorems. -/
def chunkDemo : DocChunk :=
  { id := str "c1", content := str "lorem", metadata := str "doc.pdf" }

/-- A concrete stand-in for `JSON.parse` on the document-processing stream:
payload `E` is an error event, `R` a result event, `P` a progress event;
anything else fails to parse. -/
def parsePDemo : Str → Option PdfEvent := fun payload =>
  if payload = str "E" then some (.perror (str "OCR failed"))
  else if payload = str "R" then some (.result [chunkDemo])
  else if payload = str "P" then some (.progress 40 (str "split") (str "splitting"))
  else none

/-- A starting state with one other processed document staged (id 1). -/
def pdfSt0 : PdfAppState :=
  { pendingPDFs := [{ id := 1, filename := str "other.pdf", size := 10,
                      processed := true, chunks := [] }],
    pdfProcessing := clearedProgress, toasts := [], isStreaming := false }

/-- The state after staging `doc.pdf` (clock id 2) whose processing stream
delivers a single error event. -/
def c8FinalState : PdfAppState :=
  handleUploadPDFNewRun parsePDemo 2 (str "doc.pdf") 100
    (.response true [.chunk (str "data: E\n")]) pdfSt0

/-- C8, evaluated at the failing input: a staged document whose processing
stream delivers an error event is removed from the staging collection, the
sibling attachment is untouched and the progress record is cleared — but
the only notification ever raised is the initial info toast.  No error
notification naming the filename exists, because the `throw` for the error
event is caught by the catch that handles JSON parse failures and merely
logged, so the catch of `processPDF` (which raises the toast) never runs,
contradicting the comment `Toast already displayed in processPDF` in
`handleUploadPDFNew`. -/
theorem pdf_error_event_raises_no_error_toast :
    c8FinalState.pendingPDFs.map PendingPDF.id = [1] ∧
    c8FinalState.pdfProcessing = clearedProgress ∧
    c8FinalState.toasts.map ToastMsg.kind = [ToastKind.info] := by
  decide

/-- C2 counterexample: for the chat decoder, a stream that ends without a
trailing line terminator loses its final frame.  The whole stream is one
`data: ` line whose payload parses, the reader then reports done, and
`streamChat` yields nothing: the non-empty residual matching the
line-prefix convention is discarded, not parsed. -/
theorem streamChat_discards_final_residual :
    streamChatFrames parseDemo [str "data: A"] = [] ∧
    decodeLine parseDemo (str "data: A") = some (demoDelta "hello") := by
  decide

theorem jsTrim_eq_nil_iff (s : Str) : jsTrim s = [] ↔ ∀ c ∈ s, isJsSpace c := by
  unfold jsTrim
  rw [List.reverse_eq_nil_iff, List.dropWhile_eq_nil_iff]
  constructor
  · intro h c hc
    by_cases hsp : isJsSpace c
    · exact hsp
    · have hmem : c ∈ s.dropWhile isJsSpace := by
        have hs := List.takeWhile_append_dropWhile (p := isJsSpace) (l := s)
        rw [← hs] at hc
        rcases List.mem_append.mp hc with h1 | h1
        · exact absurd (List.mem_takeWhile_imp h1) hsp
        · exact h1
      exact absurd (h c (List.mem_reverse.mpr hmem)) hsp
  · intro h c hc
    exact h c (List.dropWhile_subset _ (List.mem_reverse.mp hc))

theorem residualOf_eq_self {s : Str} (h : '\n' ∉ s) : residualOf s = s := by
  rw [residualOf, splitLines_no_newline h]
  rfl

/-- C2 amended.  First conjunct (chat decoder): the frames `streamChat`
yields are exactly those decoded from the complete (newline-terminated)
lines of the stream — on stream end a non-empty residual is discarded, not
parsed.  Second conjunct (document decoder): `processPDF` does parse the
final residual buffer; a stream ending without a trailing terminator on a
`data: ` line whose payload is a result event still returns its chunks. -/
theorem stream_end_residual_handling
    (parse : Str → Option StreamingResponse)
    (parseP : Str → Option PdfEvent) (pdfId : Nat) (filename : Str)
    (st : PdfAppState) (s : Str) (cs : List DocChunk) :
    (∀ chunks : List Str,
        streamChatFrames parse chunks =
          (processLines parse (completeLines chunks.flatten)).1) ∧
    ('\n' ∉ s → (str "data: ").isPrefixOf s = true →
      jsTrim (s.drop 6) ≠ str "[DONE]" → jsTrim (s.drop 6) ≠ [] →
      parseP (jsTrim (s.drop 6)) = some (.result cs) →
      (processPDFRun parseP pdfId filename (.response true [.chunk s]) st).2 =
        .ok (some cs)) := by
  constructor
  · intro chunks
    unfold streamChatFrames
    rw [chatReadLoop_chunks parse chunks [] (by simp)]
    simp
  · intro hnl hpre hdone hempty hres
    have htrim : jsTrim s ≠ [] := by
      rw [Ne, jsTrim_eq_nil_iff]
      intro hall
      have hd : 'd' ∈ s := by
        rcases List.isPrefixOf_iff_prefix.mp hpre with ⟨t, ht⟩
        rw [← ht]
        simp [str]
      have := hall 'd' hd
      simp [isJsSpace] at this
    simp only [processPDFRun, pdfReadLoop, List.nil_append]
    rw [completeLines, splitLines_no_newline hnl]
    simp only [List.dropLast_single, pdfProcessLines]
    rw [residualOf_eq_self hnl]
    simp only [pdfReadLoop, pdfFinalBuffer, hpre, htrim]
    rw [if_pos ⟨htrim, trivial⟩, if_pos ⟨hdone, hempty⟩, hres]

/-- Closed witness for `stream_end_residual_handling`: a document stream
consisting of one unterminated `data: R` line still returns the result
chunks through the final-buffer handling. -/
theorem stream_end_residual_handling_witness :
    (processPDFRun parsePDemo 2 (str "doc.pdf")
        (.response true [.chunk (str "data: R")]) pdfSt0).2 =
      .ok (some [chunkDemo]) :=
  (stream_end_residual_handling parseDemo parsePDemo 2 (str "doc.pdf") pdfSt0
      (str "data: R") [chunkDemo]).2
    (by decide) (by decide) (by decide) (by decide) (by decide)

theorem pdfHandleLine_skip (parseP : Str → Option PdfEvent) (pdfId : Nat)
    (mp : Str) (hpre : (str "data: ").isPrefixOf mp = true)
    (hp : parseP (jsTrim (mp.drop 6)) = none) (st : PdfAppState) :
    pdfHandleLine parseP pdfId st mp = (st, none) := by
  unfold pdfHandleLine
  simp only [hpre, if_true]
  by_cases h1 : jsTrim (mp.drop 6) = str "[DONE]"
  · simp [h1]
  · by_cases h2 : jsTrim (mp.drop 6) = []
    · simp [h1, h2]
    · simp [h1, h2, hp]

theorem pdfProcessLines_insert_skipped (parseP : Str → Option PdfEvent)
    (pdfId : Nat) (mp : Str)
    (hskip : ∀ st, pdfHandleLine parseP pdfId st mp = (st, none)) :
    ∀ (pre : List Str) (st : PdfAppState) (suf : List Str),
      pdfProcessLines parseP pdfId st (pre ++ mp :: suf) =
        pdfProcessLines parseP pdfId st (pre ++ suf)
  | [], st, suf => by
    simp only [List.nil_append, pdfProcessLines, hskip st]
  | l :: pre', st, suf => by
    simp only [List.cons_append, pdfProcessLines]
    cases h : (pdfHandleLine parseP pdfId st l).2 with
    | some cs => rfl
    | none =>
      exact pdfProcessLines_insert_skipped parseP pdfId mp hskip pre' _ suf

/-- C3: a malformed payload line is non-fatal, for both stream consumers.
First conjunct (chat decoder): deleting a line whose decode fails
(JSON.parse throws) from the line sequence does not change the decoded
output at all, so decoding continues and a single corrupt frame never
aborts the stream.  Second conjunct: concretely, a malformed line between
two well-formed frame lines (the first non-terminal) leaves both frames
yielded, in order.  Third conjunct (document decoder of `processPDF`): a
`data: ` line whose payload fails to parse is skipped without changing
state or result. -/
theorem malformed_line_nonfatal (parse : Str → Option StreamingResponse)
    (m : Str) (hm : decodeLine parse m = none) :
    (∀ pre suf : List Str,
        processLines parse (pre ++ m :: suf) = processLines parse (pre ++ suf)) ∧
    (∀ (l1 l2 : Str) (f1 f2 : StreamingResponse),
        decodeLine parse l1 = some f1 → isTerminal f1 = false →
        decodeLine parse l2 = some f2 →
        (processLines parse [l1, m, l2]).1 = [f1, f2]) ∧
    (∀ (parseP : Str → Option PdfEvent) (pdfId : Nat) (mp : Str),
        (str "data: ").isPrefixOf mp = true →
        parseP (jsTrim (mp.drop 6)) = none →
        ∀ (st : PdfAppState) (pre suf : List Str),
          pdfProcessLines parseP pdfId st (pre ++ mp :: suf) =
            pdfProcessLines parseP pdfId st (pre ++ suf)) :=
  ⟨processLines_insert_skipped parse m hm,
   processLines_two_frames parse m hm,
   fun parseP pdfId mp hpre hp st pre suf =>
     pdfProcessLines_insert_skipped parseP pdfId mp
       (pdfHandleLine_skip parseP pdfId mp hpre hp) pre st suf⟩

/-- Closed witness for `malformed_line_nonfatal`: with the concrete
parsers, a garbage line between payloads `A` and `B` is dropped with both
frames yielded, and a garbage line on the document stream changes nothing. -/
theorem malformed_line_nonfatal_witness :
    (processLines parseDemo
        [str "data: A", str "data: garbage", str "data: B"]).1 =
      [demoDelta "hello", demoDelta "world"] ∧
    pdfProcessLines parsePDemo 2 pdfSt0
        [str "data: garbage", str "data: R"] =
      pdfProcessLines parsePDemo 2 pdfSt0 [str "data: R"] :=
  ⟨(malformed_line_nonfatal parseDemo (str "data: garbage") (by decide)).2.1
      (str "data: A") (str "data: B") (demoDelta "hello") (demoDelta "world")
      (by decide) (by decide) (by decide),
   (malformed_line_nonfatal parseDemo (str "data: garbage") (by decide)).2.2
      parsePDemo 2 (str "data: garbage") (by decide) (by decide)
      pdfSt0 [] [str "data: R"]⟩

/-! ## Chat orchestrator state (src/App.tsx): send gate, deltas, stop -/

inductive Role where
  | user
  | assistant
  | tool
  deriving DecidableEq, Repr

inductive BlockType where
  | text
  | image
  | audio
  | pdf
  deriving DecidableEq, Repr

/-- A content block of a message (src/components/MessageBubble.tsx). -/
structure ContentBlock where
  type : BlockType
  content : Str
  thumbnail : Option Str := none
  transcription : Option Str := none
  filename : Option Str := none
  filesize : Option Nat := none
  deriving DecidableEq, Repr

def textBlock (s : Str) : ContentBlock := { type := .text, content := s }

/-- A chat message.  Ids come from `Date.now().toString()`; since `toString`
on numbers is injective, the id is modelled as the numeric clock value. -/
structure Message where
  id : Nat
  role : Role
  contentBlocks : List ContentBlock
  references : List Reference := []
  timestamp : Nat
  isStreaming : Bool := false
  deriving DecidableEq, Repr

/-- A staged image (element of `pendingImages`). -/
structure PendingImage where
  id : Nat
  dataUrl : Str
  thumbnail : Str
  deriving DecidableEq, Repr

/-- A staged audio (element of `pendingAudios`). -/
structure PendingAudio where
  id : Nat
  filename : Str
  duration : Nat
  transcription : Str
  processed : Bool
  deriving DecidableEq, Repr

/-- The slice of App state involved in sending a message. -/
structure AppState where
  inputValue : Str
  messages : List Message
  isStreaming : Bool
  pendingImages : List PendingImage
  pendingPDFs : List PendingPDF
  pendingAudios : List PendingAudio
  deriving DecidableEq, Repr

/-- `!inputValue.trim()` — true when the input is empty or all whitespace. -/
def isBlank (s : Str) : Bool := s.all isJsSpace

/-- The synchronous part of `handleSend` up to issuing the stream request:
the guard `(!inputValue.trim() && pendingImages.length === 0 &&
pendingAudios.length === 0) || isStreaming` returns without any effect;
otherwise the user message is built from text, staged images, staged
audios and staged documents (in that order), appended to history, the
input and the image/audio staging cleared, and the streaming flag set.
The Bool reports whether the request was issued.  `t` is `Date.now()`. -/
def handleSendStep (t : Nat) (st : AppState) : AppState × Bool :=
  if (isBlank st.inputValue && st.pendingImages.isEmpty
        && st.pendingAudios.isEmpty) || st.isStreaming then
    (st, false)
  else
    let blocks :=
      (if isBlank st.inputValue then [] else [textBlock st.inputValue]) ++
      (st.pendingImages.map fun im =>
        { type := .image, content := im.dataUrl,
          thumbnail := some im.thumbnail }) ++
      (st.pendingAudios.map fun au =>
        { type := .audio, content := [],
          transcription := some au.transcription }) ++
      (st.pendingPDFs.map fun p =>
        { type := .pdf, content := p.filename, filename := some p.filename,
          filesize := some p.size })
    let userMsg : Message :=
      { id := t, role := .user, contentBlocks := blocks, timestamp := t }
    let st2 := { st with
                 messages := st.messages ++ [userMsg],
                 inputValue := [],
                 pendingImages := [],
                 pendingAudios := [],
                 isStreaming := true }
    (st2, true)

/-- The Enter-key handler of the input bar (`InputBar.handleKeyDown`):
calls `onSend` only when some input text or any staged attachment
(images, documents or audios) exists and no stream is running. -/
def enterKeyDown (t : Nat) (st : AppState) : AppState × Bool :=
  if (!isBlank st.inputValue || !st.pendingImages.isEmpty
        || !st.pendingPDFs.isEmpty || !st.pendingAudios.isEmpty)
      && !st.isStreaming then
    handleSendStep t st
  else (st, false)

/-- A concrete state whose only content is one fully processed staged
document: no input text, no images, no audios, not streaming. -/
def onlyDocState : AppState :=
  { inputValue := [], messages := [], isStreaming := false,
    pendingImages := [],
    pendingPDFs := [{ id := 1, filename := str "doc.pdf", size := 5,
                      processed := true, chunks := [chunkDemo] }],
    pendingAudios := [] }

/-- C4 counterexample: the claimed precondition (not streaming and at least
one staged attachment — a document) holds, yet the send action is a no-op:
Enter passes the input-bar gate (which does count documents) but
`handleSend` returns at its guard, which never consults `pendingPDFs`.
The state is unchanged and no request is issued. -/
theorem send_with_only_document_is_noop :
    onlyDocState.isStreaming = false ∧
    onlyDocState.pendingPDFs ≠ [] ∧
    enterKeyDown 100 onlyDocState = (onlyDocState, false) ∧
    handleSendStep 100 onlyDocState = (onlyDocState, false) := by
  decide

/-- C4 amended: a send action proceeds iff the user is not streaming and at
least one of non-blank input text, a staged image, or a staged audio is
present — a staged document alone does not enable a send.  Every violating
send (through the key handler or directly) is a no-op: the state, and with
it the history length and all staging collections, is unchanged and no
request is issued. -/
theorem send_gate_characterization (t : Nat) (st : AppState) :
    ((handleSendStep t st).2 = true ↔
      (st.isStreaming = false ∧
        (isBlank st.inputValue = false ∨ st.pendingImages ≠ [] ∨
          st.pendingAudios ≠ []))) ∧
    ((handleSendStep t st).2 = false → handleSendStep t st = (st, false)) ∧
    ((enterKeyDown t st).2 = false → enterKeyDown t st = (st, false)) ∧
    ((handleSendStep t st).2 = true →
      (handleSendStep t st).1.messages.length = st.messages.length + 1) := by
  have hemp : ∀ {α : Type} (l : List α), l.isEmpty = true ↔ l = [] := by
    intro α l
    cases l <;> simp
  have hnemp : ∀ {α : Type} (l : List α), l.isEmpty = false ↔ l ≠ [] := by
    intro α l
    cases l <;> simp
  refine ⟨?_, ?_, ?_, ?_⟩
  · unfold handleSendStep
    cases hb : isBlank st.inputValue <;>
      cases hi : st.pendingImages.isEmpty <;>
        cases ha : st.pendingAudios.isEmpty <;>
          cases hs : st.isStreaming <;>
            simp_all [hemp _, hnemp _]
  · intro h
    unfold handleSendStep at h ⊢
    by_cases hg : (isBlank st.inputValue && st.pendingImages.isEmpty
        && st.pendingAudios.isEmpty) || st.isStreaming
    · rw [if_pos hg]
    · rw [if_neg hg] at h
      simp at h
  · intro h
    unfold enterKeyDown at h ⊢
    by_cases hk : ((!isBlank st.inputValue || !st.pendingImages.isEmpty
        || !st.pendingPDFs.isEmpty || !st.pendingAudios.isEmpty)
        && !st.isStreaming) = true
    · rw [if_pos hk] at h ⊢
      unfold handleSendStep at h ⊢
      by_cases hg : (isBlank st.inputValue && st.pendingImages.isEmpty
          && st.pendingAudios.isEmpty) || st.isStreaming
      · rw [if_pos hg]
      · rw [if_neg hg] at h
        simp at h
    · rw [if_neg hk]
  · intro h
    unfold handleSendStep at h ⊢
    by_cases hg : (isBlank st.inputValue && st.pendingImages.isEmpty
        && st.pendingAudios.isEmpty) || st.isStreaming
    · rw [if_pos hg] at h
      simp at h
    · rw [if_neg hg]
      simp

/-- Closed witness for `send_gate_characterization`: at the state with only
a staged document the gate reports no send, and the theorem instance then
gives that the whole action was a no-op. -/
theorem send_gate_characterization_witness :
    handleSendStep 7 onlyDocState = (onlyDocState, false) :=
  (send_gate_characterization 7 onlyDocState).2.1 (by decide)


/-- One `content_delta` iteration of the streaming loop in `handleSend`:
`if (chunk.type === 'content_delta' && chunk.content)` skips a falsy
(empty) delta; otherwise `fullContent += chunk.content` and the assistant
message's blocks are replaced wholesale by one text block holding the
accumulated text.  `acc` is the loop-local `fullContent`. -/
def applyDelta (aid : Nat) (acc : Str) (msgs : List Message) (d : Str) :
    Str × List Message :=
  if d = [] then (acc, msgs)
  else
    let acc2 := acc ++ d
    (acc2, msgs.map fun msg =>
      if msg.id = aid then { msg with contentBlocks := [textBlock acc2] }
      else msg)

/-- The streaming loop restricted to a sequence of content-delta payloads. -/
def runDeltas (aid : Nat) : Str × List Message → List Str → Str × List Message
  | st, [] => st
  | (acc, msgs), d :: ds => runDeltas aid (applyDelta aid acc msgs d) ds

/-- The empty assistant placeholder appended when streaming starts
(one empty text block, streaming=true). -/
def placeholderMsg (aid ts : Nat) : Message :=
  { id := aid, role := .assistant, contentBlocks := [textBlock []],
    references := [], timestamp := ts, isStreaming := true }

theorem runDeltas_accumulates (aid : Nat) :
    ∀ (ds : List Str) (acc : Str) (others : List Message) (base : Message),
      (∀ mo ∈ others, mo.id ≠ aid) → base.id = aid →
      runDeltas aid
          (acc, others ++ [{ base with contentBlocks := [textBlock acc] }]) ds =
        (acc ++ ds.flatten,
          others ++
            [{ base with contentBlocks := [textBlock (acc ++ ds.flatten)] }])
  | [], acc, others, base, _, _ => by
    simp [runDeltas]
  | d :: ds, acc, others, base, h, hb => by
    simp only [runDeltas, applyDelta, List.flatten_cons]
    by_cases hd : d = []
    · rw [if_pos hd]
      have ih := runDeltas_accumulates aid ds acc others base h hb
      rw [ih, hd]
      simp
    · rw [if_neg hd]
      simp only [List.map_append, List.map_cons, List.map_nil]
      have hoth : (others.map fun msg =>
          if msg.id = aid then
            { msg with contentBlocks := [textBlock (acc ++ d)] }
          else msg) = others := by
        have hcg := List.map_congr_left
          (l := others)
          (f := fun msg =>
            if msg.id = aid then
              { msg with contentBlocks := [textBlock (acc ++ d)] }
            else msg)
          (g := id)
          (fun mo hmo => by simp [h mo hmo])
        rw [hcg, List.map_id]
      rw [hoth]
      have hupd : (if ({ base with contentBlocks := [textBlock acc] } : Message).id = aid
            then { { base with contentBlocks := [textBlock acc] } with
                   contentBlocks := [textBlock (acc ++ d)] }
            else { base with contentBlocks := [textBlock acc] }) =
          { base with contentBlocks := [textBlock (acc ++ d)] } := by
        rw [if_pos hb]
      rw [hupd]
      have ih := runDeltas_accumulates aid ds (acc ++ d) others base h hb
      rw [ih]
      simp

/-- C6: streaming accumulation invariant.  Starting from the empty
assistant placeholder (one empty text block), after any prefix `ds` of
content-delta payloads the assistant message holds exactly one text block
whose content is the concatenation of that prefix — each delta replaces
the single block wholesale, never appending another block — and the other
messages are untouched.  The hypothesis says the placeholder id collides
with no other message id. -/
theorem streaming_accumulation_invariant (aid ts : Nat)
    (others : List Message) (hothers : ∀ mo ∈ others, mo.id ≠ aid)
    (ds : List Str) :
    runDeltas aid ([], others ++ [placeholderMsg aid ts]) ds =
      (ds.flatten,
        others ++
          [{ placeholderMsg aid ts with
             contentBlocks := [textBlock ds.flatten] }]) := by
  have h := runDeltas_accumulates aid ds [] others (placeholderMsg aid ts)
    hothers rfl
  simpa [placeholderMsg] using h

/-- Closed witness for `streaming_accumulation_invariant`: two deltas on a
fresh placeholder (no other messages) produce the single text block
`Hello`. -/
theorem streaming_accumulation_invariant_witness :
    runDeltas 2 ([], [] ++ [placeholderMsg 2 5]) [str "Hel", str "lo"] =
      (str "Hello",
        [] ++ [{ placeholderMsg 2 5 with
                 contentBlocks := [textBlock (str "Hello")] }]) :=
  streaming_accumulation_invariant 2 5 [] (by simp) [str "Hel", str "lo"]

/-- `handleStop`: sets the global streaming flag to false and maps
streaming=false over every message, leaving all other fields alone. -/
def handleStop (st : AppState) : AppState :=
  { st with
    isStreaming := false,
    messages := st.messages.map fun m => { m with isStreaming := false } }

/-- A streaming assistant message that has accumulated `Hello`. -/
def c5Msg : Message :=
  { id := 2, role := .assistant, contentBlocks := [textBlock (str "Hello")],
    references := [], timestamp := 5, isStreaming := true }

/-- The app state mid-stream holding `c5Msg`. -/
def c5State : AppState :=
  { inputValue := [], messages := [c5Msg], isStreaming := true,
    pendingImages := [], pendingPDFs := [], pendingAudios := [] }

/-- C5 counterexample: after the user stop action the message keeps its
text with streaming=false, but a late content-delta frame arriving
afterwards still mutates the message's content (the consumption loop in
`handleSend` never consults the stop flag), so "no further mutation of
that message's content even if late content-delta frames arrive after the
stop action" is false on the code. -/
theorem cancellation_late_delta_still_mutates :
    (handleStop c5State).messages = [{ c5Msg with isStreaming := false }] ∧
    (applyDelta 2 (str "Hello") (handleStop c5State).messages
        (str " world")).2 =
      [{ c5Msg with
         isStreaming := false,
         contentBlocks := [textBlock (str "Hello world")] }] ∧
    ([textBlock (str "Hello world")] : List ContentBlock) ≠
      [textBlock (str "Hello")] := by
  decide

/-- C5 amended: cancelling mid-stream clears the global streaming flag,
preserves every message's accumulated content blocks at that instant and
sets streaming=false on all messages; however the read loop does not
consult the stop flag, so a late non-empty content-delta frame arriving
after the stop still replaces the matching message's content with the
extended accumulation (its streaming flag merely stays false). -/
theorem cancellation_behavior (st : AppState) :
    ((handleStop st).isStreaming = false) ∧
    ((handleStop st).messages.map Message.contentBlocks =
      st.messages.map Message.contentBlocks) ∧
    (∀ m ∈ (handleStop st).messages, m.isStreaming = false) ∧
    (∀ (aid : Nat) (acc d : Str), d ≠ [] →
      (applyDelta aid acc (handleStop st).messages d).2 =
        (handleStop st).messages.map fun m =>
          if m.id = aid then
            { m with contentBlocks := [textBlock (acc ++ d)] }
          else m) := by
  refine ⟨rfl, ?_, ?_, ?_⟩
  · simp [handleStop, List.map_map]
  · intro m hm
    simp only [handleStop, List.mem_map] at hm
    rcases hm with ⟨a, _, rfl⟩
    rfl
  · intro aid acc d hd
    unfold applyDelta
    rw [if_neg hd]

/-- Closed witness for `cancellation_behavior`: the late delta ` world`
applied after stopping `c5State` updates the message to the extended text. -/
theorem cancellation_behavior_witness :
    (applyDelta 2 (str "Hello") (handleStop c5State).messages
        (str " world")).2 =
      (handleStop c5State).messages.map fun m =>
        if m.id = 2 then
          { m with contentBlocks := [textBlock (str "Hello" ++ str " world")] }
        else m :=
  (cancellation_behavior c5State).2.2.2 2 (str "Hello") (str " world")
    (by decide)

/-! ## Staging pipeline reachable states (src/App.tsx upload handlers) -/

/-- The three staging collections. -/
structure StagingState where
  images : List PendingImage
  pdfs : List PendingPDF
  audios : List PendingAudio
  deriving DecidableEq, Repr

/-- The staging pipeline's transitions.  Every add handler draws the new
attachment's client id from the clock: `id: Date.now().toString()`; `t` is
that clock value.  Removal is by id (`filter`), document completion
rewrites the matched document in place, and the clear handlers empty one
collection. -/
inductive StageEvent where
  | addImage (t : Nat) (dataUrl : Str)
  | addPDF (t : Nat) (filename : Str) (size : Nat)
  | addAudio (t : Nat) (filename : Str) (duration : Nat) (transcription : Str)
  | removeImage (i : Nat)
  | removePDF (i : Nat)
  | removeAudio (i : Nat)
  | markPDFProcessed (i : Nat) (cs : List DocChunk)
  | clearImages
  | clearPDFs
  | clearAudios
  deriving DecidableEq, Repr

def stageStep (st : StagingState) : StageEvent → StagingState
  | .addImage t d =>
    { st with images := st.images ++ [{ id := t, dataUrl := d, thumbnail := d }] }
  | .addPDF t fn sz =>
    { st with pdfs := st.pdfs ++
        [{ id := t, filename := fn, size := sz, processed := false, chunks := [] }] }
  | .addAudio t fn du tr =>
    { st with audios := st.audios ++
        [{ id := t, filename := fn, duration := du, transcription := tr,
           processed := true }] }
  | .removeImage i => { st with images := st.images.filter fun im => im.id != i }
  | .removePDF i => { st with pdfs := st.pdfs.filter fun p => p.id != i }
  | .removeAudio i => { st with audios := st.audios.filter fun a => a.id != i }
  | .markPDFProcessed i cs =>
    { st with pdfs := st.pdfs.map fun p =>
        if p.id = i then { p with processed := true, chunks := cs } else p }
  | .clearImages => { st with images := [] }
  | .clearPDFs => { st with pdfs := [] }
  | .clearAudios => { st with audios := [] }

def emptyStaging : StagingState := { images := [], pdfs := [], audios := [] }

def runStaging (evts : List StageEvent) : StagingState :=
  evts.foldl stageStep emptyStaging

/-- All client ids currently staged, across the three collections. -/
def stagedIds (st : StagingState) : List Nat :=
  st.images.map PendingImage.id ++ st.pdfs.map PendingPDF.id ++
    st.audios.map PendingAudio.id

/-- The clock reading an event consumes, when it stages something. -/
def addTime : StageEvent → Option Nat
  | .addImage t _ => some t
  | .addPDF t _ _ => some t
  | .addAudio t _ _ _ => some t
  | _ => none

/-- C9 counterexample: two file selections staged at the same clock
millisecond receive the same id, so the staged ids are not pairwise
distinct. -/
theorem same_millisecond_staging_collides :
    stagedIds (runStaging
        [.addImage 1700 (str "img1"),
         .addAudio 1700 (str "a.mp3") 3 (str "hi")]) = [1700, 1700] ∧
    ¬ (stagedIds (runStaging
        [.addImage 1700 (str "img1"),
         .addAudio 1700 (str "a.mp3") 3 (str "hi")])).Nodup := by
  decide

theorem nodup_insert_mid (A B : List Nat) (t : Nat) (h : (A ++ B).Nodup)
    (ht : t ∉ A ++ B) : (A ++ t :: B).Nodup := by
  rw [List.nodup_middle, List.nodup_cons]
  exact ⟨ht, h⟩


theorem mem_of_mem_insert_mid {A B : List Nat} {t i : Nat}
    (hi : i ∈ A ++ t :: B) : i = t ∨ i ∈ A ++ B := by
  rcases List.mem_append.mp hi with hA | hB
  · exact Or.inr (List.mem_append.mpr (Or.inl hA))
  · rcases List.mem_cons.mp hB with h | h
    · exact Or.inl h
    · exact Or.inr (List.mem_append.mpr (Or.inr h))

theorem stagedIds_nodup_aux :
    ∀ (evts : List StageEvent) (st : StagingState),
      (stagedIds st).Nodup →
      (∀ i ∈ stagedIds st, i ∉ evts.filterMap addTime) →
      (evts.filterMap addTime).Nodup →
      (stagedIds (evts.foldl stageStep st)).Nodup := by
  intro evts
  induction evts with
  | nil =>
    intro st h1 _ _
    simpa using h1
  | cons e evts ih =>
    intro st h1 h2 h3
    rw [List.foldl_cons]
    cases e with
    | addImage t d =>
      rw [show List.filterMap addTime (StageEvent.addImage t d :: evts) =
          t :: evts.filterMap addTime from by simp [addTime]] at h2 h3
      rw [List.nodup_cons] at h3
      have htst : t ∉ stagedIds st := fun h => (h2 t h) (List.mem_cons_self _ _)
      have hflat : stagedIds st =
          st.images.map PendingImage.id ++
            (st.pdfs.map PendingPDF.id ++ st.audios.map PendingAudio.id) :=
        List.append_assoc _ _ _
      rw [hflat] at h1 h2 htst
      have hshape : stagedIds (stageStep st (.addImage t d)) =
          st.images.map PendingImage.id ++ t ::
            (st.pdfs.map PendingPDF.id ++ st.audios.map PendingAudio.id) := by
        simp [stagedIds, stageStep]
      apply ih
      · rw [hshape]
        exact nodup_insert_mid _ _ _ h1 htst
      · intro i hi
        rw [hshape] at hi
        rcases mem_of_mem_insert_mid hi with rfl | hst
        · exact h3.1
        · exact fun hmem => (h2 i hst) (List.mem_cons_of_mem _ hmem)
      · exact h3.2
    | addPDF t fn sz =>
      rw [show List.filterMap addTime (StageEvent.addPDF t fn sz :: evts) =
          t :: evts.filterMap addTime from by simp [addTime]] at h2 h3
      rw [List.nodup_cons] at h3
      have htst : t ∉ stagedIds st := fun h => (h2 t h) (List.mem_cons_self _ _)
      have hshape : stagedIds (stageStep st (.addPDF t fn sz)) =
          (st.images.map PendingImage.id ++ st.pdfs.map PendingPDF.id) ++ t ::
            st.audios.map PendingAudio.id := by
        simp [stagedIds, stageStep]
      apply ih
      · rw [hshape]
        exact nodup_insert_mid _ _ _ h1 htst
      · intro i hi
        rw [hshape] at hi
        rcases mem_of_mem_insert_mid hi with rfl | hst
        · exact h3.1
        · exact fun hmem => (h2 i hst) (List.mem_cons_of_mem _ hmem)
      · exact h3.2
    | addAudio t fn du tr =>
      rw [show List.filterMap addTime (StageEvent.addAudio t fn du tr :: evts) =
          t :: evts.filterMap addTime from by simp [addTime]] at h2 h3
      rw [List.nodup_cons] at h3
      have htst : t ∉ stagedIds st := fun h => (h2 t h) (List.mem_cons_self _ _)
      have hshape : stagedIds (stageStep st (.addAudio t fn du tr)) =
          stagedIds st ++ t :: [] := by
        simp [stagedIds, stageStep]
      apply ih
      · rw [hshape]
        refine nodup_insert_mid _ _ _ ?_ ?_
        · simpa using h1
        · simpa using htst
      · intro i hi
        rw [hshape] at hi
        rcases mem_of_mem_insert_mid hi with rfl | hst
        · exact h3.1
        · rw [List.append_nil] at hst
          exact fun hmem => (h2 i hst) (List.mem_cons_of_mem _ hmem)
      · exact h3.2
    | removeImage j =>
      rw [show List.filterMap addTime (StageEvent.removeImage j :: evts) =
          evts.filterMap addTime from by simp [addTime]] at h2 h3
      have hsub : List.Sublist (stagedIds (stageStep st (.removeImage j)))
          (stagedIds st) := by
        simp only [stagedIds, stageStep]
        exact (((List.filter_sublist _).map _).append_right _).append_right _
      exact ih _ (List.Nodup.sublist hsub h1)
        (fun i hi => h2 i (hsub.subset hi)) h3
    | removePDF j =>
      rw [show List.filterMap addTime (StageEvent.removePDF j :: evts) =
          evts.filterMap addTime from by simp [addTime]] at h2 h3
      have hsub : List.Sublist (stagedIds (stageStep st (.removePDF j)))
          (stagedIds st) := by
        simp only [stagedIds, stageStep]
        exact ((((List.filter_sublist _).map _).append_left _).append_right _)
      exact ih _ (List.Nodup.sublist hsub h1)
        (fun i hi => h2 i (hsub.subset hi)) h3
    | removeAudio j =>
      rw [show List.filterMap addTime (StageEvent.removeAudio j :: evts) =
          evts.filterMap addTime from by simp [addTime]] at h2 h3
      have hsub : List.Sublist (stagedIds (stageStep st (.removeAudio j)))
          (stagedIds st) := by
        simp only [stagedIds, stageStep]
        exact ((List.filter_sublist _).map _).append_left _
      exact ih _ (List.Nodup.sublist hsub h1)
        (fun i hi => h2 i (hsub.subset hi)) h3
    | markPDFProcessed j cs =>
      rw [show List.filterMap addTime (StageEvent.markPDFProcessed j cs :: evts)
          = evts.filterMap addTime from by simp [addTime]] at h2 h3
      have hshape : stagedIds (stageStep st (.markPDFProcessed j cs)) =
          stagedIds st := by
        simp only [stagedIds, stageStep, List.map_map]
        have hpd : ∀ p ∈ st.pdfs,
            (PendingPDF.id ∘ fun p =>
              if p.id = j then { p with processed := true, chunks := cs }
              else p) p = PendingPDF.id p := by
          intro p _
          by_cases h : p.id = j <;> simp [h]
        rw [List.map_congr_left hpd]
      exact ih _ (by rw [hshape]; exact h1)
        (fun i hi => h2 i (by rwa [hshape] at hi)) h3
    | clearImages =>
      rw [show List.filterMap addTime (StageEvent.clearImages :: evts) =
          evts.filterMap addTime from by simp [addTime]] at h2 h3
      have hsub : List.Sublist (stagedIds (stageStep st .clearImages))
          (stagedIds st) := by
        simp only [stagedIds, stageStep, List.map_nil, List.nil_append]
        rw [List.append_assoc]
        exact List.sublist_append_right _ _
      exact ih _ (List.Nodup.sublist hsub h1)
        (fun i hi => h2 i (hsub.subset hi)) h3
    | clearPDFs =>
      rw [show List.filterMap addTime (StageEvent.clearPDFs :: evts) =
          evts.filterMap addTime from by simp [addTime]] at h2 h3
      have hsub : List.Sublist (stagedIds (stageStep st .clearPDFs))
          (stagedIds st) := by
        simp only [stagedIds, stageStep, List.map_nil, List.append_nil]
        rw [List.append_assoc]
        exact List.Sublist.append (List.Sublist.refl _)
          (List.sublist_append_right _ _)
      exact ih _ (List.Nodup.sublist hsub h1)
        (fun i hi => h2 i (hsub.subset hi)) h3
    | clearAudios =>
      rw [show List.filterMap addTime (StageEvent.clearAudios :: evts) =
          evts.filterMap addTime from by simp [addTime]] at h2 h3
      have hsub : List.Sublist (stagedIds (stageStep st .clearAudios))
          (stagedIds st) := by
        simp only [stagedIds, stageStep, List.map_nil, List.append_nil]
        exact List.sublist_append_left _ _
      exact ih _ (List.Nodup.sublist hsub h1)
        (fun i hi => h2 i (hsub.subset hi)) h3

/-- C9 amended: staged-attachment ids are pairwise distinct across all
three collections in every reachable state of the staging pipeline,
provided no two staging events read the same clock millisecond — each
handler draws the id from `Date.now()`, so two file selections staged in
the same millisecond receive the same id and the invariant fails without
that proviso. -/
theorem staged_attachment_ids_distinct (evts : List StageEvent)
    (h : (evts.filterMap addTime).Nodup) :
    (stagedIds (runStaging evts)).Nodup :=
  stagedIds_nodup_aux evts emptyStaging (by simp [stagedIds, emptyStaging])
    (by simp [stagedIds, emptyStaging]) h

/-- Closed witness for `staged_attachment_ids_distinct`: one image, one
document and one audio staged at distinct milliseconds, with a removal,
leave pairwise-distinct ids. -/
theorem staged_attachment_ids_distinct_witness :
    (stagedIds (runStaging
      [.addImage 1 (str "i"), .addPDF 2 (str "d.pdf") 9,
       .addAudio 3 (str "a.mp3") 4 (str "t"), .removePDF 2])).Nodup :=
  staged_attachment_ids_distinct _ (by decide)

/-! ## Reference resolution (MessageBubble.renderContent, ReferenceSuperscript) -/

/-- A part produced by `content.split(/(\[\d+\])/g)`: either a literal text
span or a captured marker `[digits]` (the digit string is kept, since the
superscript displays `match[1]` verbatim). -/
inductive Piece where
  | text (s : Str)
  | marker (digits : Str)
  deriving DecidableEq, Repr

/-- Left-to-right scanner equivalent to the regex split with a capture
group: finds the leftmost non-overlapping occurrences of `[` followed by
one or more digits followed by `]`, emitting the interleaved literal text
parts (possibly empty) exactly as `String.prototype.split` does.
`textAcc` is the literal text accumulated since the last marker; `pend`
is `some ds` when the scanner sits inside a candidate `[ds` prefix. -/
def scanRM (textAcc : Str) (pend : Option Str) : Str → List Piece
  | [] =>
    match pend with
    | none => [.text textAcc]
    | some ds => [.text (textAcc ++ '[' :: ds)]
  | c :: s =>
    match pend with
    | none =>
      if c = '[' then scanRM textAcc (some []) s
      else scanRM (textAcc ++ [c]) none s
    | some ds =>
      if c.isDigit then scanRM textAcc (some (ds ++ [c])) s
      else if c = ']' then
        if ds = [] then scanRM (textAcc ++ ('[' :: [']'])) none s
        else .text textAcc :: .marker ds :: scanRM [] none s
      else if c = '[' then scanRM (textAcc ++ '[' :: ds) (some []) s
      else scanRM (textAcc ++ '[' :: ds ++ [c]) none s

/-- `block.content.split(/(\[\d+\])/g)` as a piece list. -/
def splitRefMarkers (content : Str) : List Piece := scanRM [] none content

/-- A rendered span: literal text, an interactive (clickable) citation
bound to a reference, or the visibly-distinct non-clickable citation
(rendered with `opacity-50 cursor-not-allowed` and no action). -/
inductive RefSpan where
  | text (s : Str)
  | resolved (digits : Str) (ref : Reference)
  | unresolved (digits : Str)
  deriving DecidableEq, Repr

/-- `parseInt` on a digit string. -/
def digitsToNat (ds : Str) : Nat :=
  ds.foldl (fun n c => 10 * n + (c.toNat - Char.toNat '0')) 0

/-- JavaScript array indexing: `a[i]` is undefined for negative `i`. -/
def jsIndex {α : Type} (l : List α) (i : Int) : Option α :=
  if i < 0 then none else l.get? i.toNat

/-- The rendering of one part (`parts.map` body in `processContent`):
a marker resolves through `references[parseInt(match[1]) - 1]` when a
non-empty reference list is present and the element exists; otherwise it
renders as the non-clickable citation. -/
def renderPiece (refs : List Reference) : Piece → RefSpan
  | .text s => .text s
  | .marker ds =>
    if refs.length > 0 then
      match jsIndex refs ((digitsToNat ds : Int) - 1) with
      | some r => .resolved ds r
      | none => .unresolved ds
    else .unresolved ds

/-- `MessageBubble.renderContent`'s `processContent` over one text block. -/
def processContent (content : Str) (refs : List Reference) : List RefSpan :=
  (splitRefMarkers content).map (renderPiece refs)

/-- The source text a piece covers. -/
def pieceText : Piece → Str
  | .text s => s
  | .marker ds => '[' :: ds ++ [']']

/-- The source text a rendered span covers (the superscript shows the
digit string of the marker). -/
def spanText : RefSpan → Str
  | .text s => s
  | .resolved ds _ => '[' :: ds ++ [']']
  | .unresolved ds => '[' :: ds ++ [']']

def joinSpans (l : List RefSpan) : Str := (l.map spanText).flatten

theorem scanRM_join :
    ∀ (s acc : Str) (pend : Option Str),
      ((scanRM acc pend s).map pieceText).flatten =
        acc ++ (match pend with | none => [] | some ds => '[' :: ds) ++ s
  | [], acc, none => by simp [scanRM, pieceText]
  | [], acc, some ds => by simp [scanRM, pieceText]
  | c :: s, acc, none => by
    simp only [scanRM]
    by_cases hc : c = '['
    · rw [if_pos hc, scanRM_join s acc (some [])]
      simp [hc]
    · rw [if_neg hc, scanRM_join s (acc ++ [c]) none]
      simp
  | c :: s, acc, some ds => by
    simp only [scanRM]
    by_cases hd : c.isDigit
    · rw [if_pos hd, scanRM_join s acc (some (ds ++ [c]))]
      simp
    · rw [if_neg hd]
      by_cases hc : c = ']'
      · rw [if_pos hc]
        by_cases hds : ds = []
        · rw [if_pos hds, scanRM_join s (acc ++ ('[' :: [']'])) none]
          simp [hds, hc]
        · rw [if_neg hds]
          simp only [List.map_cons, List.flatten_cons, pieceText]
          rw [scanRM_join s [] none]
          simp [hc]
      · rw [if_neg hc]
        by_cases hb : c = '['
        · rw [if_pos hb, scanRM_join s (acc ++ '[' :: ds) (some [])]
          simp [hb]
        · rw [if_neg hb, scanRM_join s (acc ++ '[' :: ds ++ [c]) none]
          simp

/-- A concrete reference for instantiating the resolver. -/
def refDemo : Reference :=
  { id := 1, text := str "excerpt", source := str "doc.pdf", page := 3,
    chunk_id := 0, source_info := str "doc.pdf - Page 3" }

theorem spanText_renderPiece (refs : List Reference) (p : Piece) :
    spanText (renderPiece refs p) = pieceText p := by
  cases p with
  | text s => rfl
  | marker ds =>
    simp only [renderPiece, pieceText]
    by_cases h : refs.length > 0
    · rw [if_pos h]
      cases jsIndex refs ((digitsToNat ds : Int) - 1) <;> rfl
    · rw [if_neg h]
      rfl

/-- C7: reference resolution.  Conjunct 1: for every message text and
reference list, the decomposition into literal text spans and citation
spans reproduces the text exactly (surrounding literal spans are preserved
verbatim, markers cover exactly their `[digits]` occurrence).  Conjunct 2:
a marker whose number `k` satisfies `1 ≤ k ≤ length refs` resolves to
`refs[k-1]` as an interactive citation.  Conjunct 3: a marker whose `k` is
out of range, or met with an absent/empty reference list, renders as the
visibly-distinct non-clickable citation.  Conjunct 4: the text
`See [1] and [9]` with a one-element reference list yields one resolved
citation for 1 and one unresolved citation for 9 with the literal spans
intact. -/
theorem reference_resolution :
    (∀ (content : Str) (refs : List Reference),
        joinSpans (processContent content refs) = content) ∧
    (∀ (refs : List Reference) (ds : Str) (r : Reference),
        1 ≤ digitsToNat ds → refs.get? (digitsToNat ds - 1) = some r →
        renderPiece refs (.marker ds) = .resolved ds r) ∧
    (∀ (refs : List Reference) (ds : Str),
        (digitsToNat ds = 0 ∨ refs.length < digitsToNat ds ∨ refs = []) →
        renderPiece refs (.marker ds) = .unresolved ds) ∧
    (processContent (str "See [1] and [9]") [refDemo] =
      [.text (str "See "), .resolved (str "1") refDemo,
       .text (str " and "), .unresolved (str "9"), .text []]) := by
  refine ⟨?_, ?_, ?_, by decide⟩
  · intro content refs
    unfold joinSpans processContent splitRefMarkers
    rw [List.map_map]
    have : ((spanText ∘ renderPiece refs) : Piece → Str) = pieceText := by
      funext p
      exact spanText_renderPiece refs p
    rw [this, scanRM_join content [] none]
    simp
  · intro refs ds r h1 h2
    have hlen : digitsToNat ds - 1 < refs.length := by
      rcases List.get?_eq_some.mp h2 with ⟨hlt, _⟩
      exact hlt
    simp only [renderPiece]
    rw [if_pos (by omega)]
    have hix : jsIndex refs ((digitsToNat ds : Int) - 1) = some r := by
      unfold jsIndex
      rw [if_neg (by omega)]
      have : ((digitsToNat ds : Int) - 1).toNat = digitsToNat ds - 1 := by omega
      rw [this, h2]
    rw [hix]
  · intro refs ds h
    simp only [renderPiece]
    rcases h with h | h | h
    · by_cases hl : refs.length > 0
      · rw [if_pos hl]
        have hix : jsIndex refs ((digitsToNat ds : Int) - 1) = none := by
          unfold jsIndex
          rw [if_pos (by omega)]
        rw [hix]
      · rw [if_neg hl]
    · by_cases hl : refs.length > 0
      · rw [if_pos hl]
        have hix : jsIndex refs ((digitsToNat ds : Int) - 1) = none := by
          unfold jsIndex
          rw [if_neg (by omega)]
          have : ((digitsToNat ds : Int) - 1).toNat = digitsToNat ds - 1 := by
            omega
          rw [this]
          exact List.get?_eq_none.mpr (by omega)
        rw [hix]
      · rw [if_neg hl]
    · rw [h]
      simp

/-- Closed witness for `reference_resolution`: the marker 1 resolves to the
single reference. -/
theorem reference_resolution_witness :
    renderPiece [refDemo] (.marker (str "1")) = .resolved (str "1") refDemo :=
  reference_resolution.2.1 [refDemo] (str "1") refDemo (by decide) (by decide)
